import Mathlib

/-!
Shallow embedding of the `safecast` crate: a layout-validation and
safe-reinterpretation engine.  Types carry their declared size, alignment
and (for aggregates) ordered member list; values carry their type, their
start address and their raw bytes.  Each Rust `assert!` is modelled as a
branch producing a distinguishable failure value, and the raw
`copy_nonoverlapping` is modelled as a pure byte-list rewrite performed
only after all checks pass, exactly as in the source.
-/

namespace SafecastModel

/-- Failure conditions.  Each corresponds to a distinct `assert!`/panic in
the source (`src/src/lib.rs` and the validation routine emitted by
`derive_safecast` in `src/bytesafe/src/lib.rs`); `indexOutOfBounds` is the
panic raised by `self[0]` on an empty slice in the `[T]` impl. -/
inductive Err : Type where
  | zeroSizedOperand
  | sizeMismatch
  | alignmentMismatch
  | indivisibleSize
  | paddingDetected
  | indexOutOfBounds
deriving DecidableEq, Repr

/-- The panic message attached to each failure in the source. -/
def message : Err → String
  | .zeroSizedOperand  => "ZST not allowed"
  | .sizeMismatch      => "Size mismatch in cast_copy_into"
  | .alignmentMismatch => "Cast alignment mismatch"
  | .indivisibleSize   => "cast src cannot be evenly divided by T"
  | .paddingDetected   => "Safecast not allowed on structures with padding bytes"
  | .indexOutOfBounds  => "index out of bounds"

/-- Outcome of an operation: a value, or a panic with a failure condition.
A panic aborts before the raw byte transfer, so a `fail` outcome carries
no partial result (mirroring that every `assert!` precedes the copy). -/
inductive Res (α : Type) : Type where
  | ok (a : α)
  | fail (e : Err)
deriving DecidableEq

/-- Types of the `Safecast` world.
  * `prim sz al` – a fixed-width integer primitive (`u8` … `i128`,
    `usize`/`isize`) of size `sz` and alignment `al`;
  * `agg sz al members` – a `#[repr(C)]` struct with compiler-assigned
    size `sz`, alignment `al` and ordered member types `members`;
  * `array n t` – a fixed array `[T; n]` (the source enumerates impls for
    lengths 1–256);
  * `slice n t` – a dynamically-sized slice `[T]` whose runtime length is
    `n` (the length is a property of the value, carried here in the type
    so that `size_of_val` is a function of the type). -/
inductive Ty : Type where
  | prim  (sz al : Nat)
  | agg   (sz al : Nat) (members : List Ty)
  | array (n : Nat) (t : Ty)
  | slice (n : Nat) (t : Ty)

/-- `core::mem::size_of_val`: declared size for sized types, element size
times length for arrays and slices. -/
def size_of : Ty → Nat
  | .prim sz _    => sz
  | .agg sz _ _   => sz
  | .array n t    => n * size_of t
  | .slice n t    => n * size_of t

/-- `core::mem::align_of`: declared alignment; arrays and slices share the
element's alignment. -/
def align_of : Ty → Nat
  | .prim _ al    => al
  | .agg _ al _   => al
  | .array _ t    => align_of t
  | .slice _ t    => align_of t

/-- A live value: its type, the address its storage starts at, and its raw
bytes. -/
structure Val : Type where
  ty    : Ty
  addr  : Nat
  bytes : List Nat

/-- Sum of the declared sizes of a member list, as accumulated by the
generated `unpadded_struct_size` loop. -/
def sumSizes : List Ty → Nat
  | []      => 0
  | m :: r  => size_of m + sumSizes r

mutual
/-- The `Safecast::safecast` validation routine.
  * primitives: no-op (`fn safecast(&self) {}`);
  * aggregates: the routine emitted by `derive_safecast` — call `safecast`
    on each member in declaration order while accumulating
    `unpadded_struct_size`, then assert the accumulated sum equals
    `size_of::<Self>()`, failing with the padding condition otherwise;
  * arrays: validate the representative element `self[0]`;
  * slices: validate `self[0]`, which panics with an index-out-of-bounds
    error when the slice is empty. -/
def safecast : Ty → Res Unit
  | .prim _ _ => .ok ()
  | .agg sz _ members =>
    match safecastMembers members with
    | .fail e => .fail e
    | .ok unpadded =>
      if unpadded = sz then .ok () else .fail .paddingDetected
  | .array _ t => safecast t
  | .slice n t => if n = 0 then .fail .indexOutOfBounds else safecast t

/-- The member walk of the generated routine: validate each member in
order and return the accumulated sum of member sizes; the first member
failure aborts the walk. -/
def safecastMembers : List Ty → Res Nat
  | [] => .ok 0
  | m :: rest =>
    match safecast m with
    | .fail e => .fail e
    | .ok _ =>
      match safecastMembers rest with
      | .fail e => .fail e
      | .ok s => .ok (size_of m + s)
end

/-- `core::ptr::copy_nonoverlapping` of `n` bytes from the start of `src`
over the start of `dst`: the first `n` bytes of `dst` are replaced by the
first `n` bytes of `src`, the rest of `dst` is untouched. -/
def copyBytes (n : Nat) (src dst : List Nat) : List Nat :=
  List.take n src ++ List.drop n dst

/-- `Safecast::cast_copy_into`: assert both operands have nonzero size,
assert the sizes match, validate both operand types, then (and only then)
copy `size_of_val(self)` raw bytes from the source's storage over the
start of the destination's storage. -/
def cast_copy_into (s d : Val) : Res Val :=
  if 0 < size_of s.ty then
    if 0 < size_of d.ty then
      if size_of s.ty = size_of d.ty then
        match safecast s.ty with
        | .fail e => .fail e
        | .ok _ =>
          match safecast d.ty with
          | .fail e => .fail e
          | .ok _ =>
            .ok { d with bytes := copyBytes (size_of s.ty) s.bytes d.bytes }
      else .fail .sizeMismatch
    else .fail .zeroSizedOperand
  else .fail .zeroSizedOperand

/-- `Safecast::cast_copy`: allocate an uninitialized return value of type
`t` (its storage starts at `retAddr` and initially holds the arbitrary
bytes `garbage`), fill it with `cast_copy_into`, and return it. -/
def cast_copy (s : Val) (t : Ty) (retAddr : Nat) (garbage : List Nat) : Res Val :=
  cast_copy_into s { ty := t, addr := retAddr, bytes := garbage }

/-- `Safecast::cast`: assert nonzero sizes, validate the source, assert the
source address satisfies the target alignment, assert the source size is
divisible by the element size, build the borrowed slice view over the
source's own storage, validate the view, and return it. -/
def cast (s : Val) (t : Ty) : Res Val :=
  if 0 < size_of s.ty then
    if 0 < size_of t then
      match safecast s.ty with
      | .fail e => .fail e
      | .ok _ =>
        if 0 < align_of t ∧ s.addr % align_of t = 0 then
          if size_of s.ty % size_of t = 0 then
            match safecast (Ty.slice (size_of s.ty / size_of t) t) with
            | .fail e => .fail e
            | .ok _ =>
              .ok { ty := .slice (size_of s.ty / size_of t) t,
                    addr := s.addr, bytes := s.bytes }
          else .fail .indivisibleSize
        else .fail .alignmentMismatch
    else .fail .zeroSizedOperand
  else .fail .zeroSizedOperand

/-- `Safecast::cast_mut`: same checks and same view construction as
`cast`, but the view is mutable (mutability is not observable in this
byte-level model, so the body coincides with `cast`). -/
def cast_mut (s : Val) (t : Ty) : Res Val :=
  if 0 < size_of s.ty then
    if 0 < size_of t then
      match safecast s.ty with
      | .fail e => .fail e
      | .ok _ =>
        if 0 < align_of t ∧ s.addr % align_of t = 0 then
          if size_of s.ty % size_of t = 0 then
            match safecast (Ty.slice (size_of s.ty / size_of t) t) with
            | .fail e => .fail e
            | .ok _ =>
              .ok { ty := .slice (size_of s.ty / size_of t) t,
                    addr := s.addr, bytes := s.bytes }
          else .fail .indivisibleSize
        else .fail .alignmentMismatch
    else .fail .zeroSizedOperand
  else .fail .zeroSizedOperand

/-- The `u8` primitive. -/
def u8 : Ty := .prim 1 1

/-- A raw byte buffer: a `[u8]` slice value of length `n` starting at
address `a` with contents `b`. -/
def byteBuf (n a : Nat) (b : List Nat) : Val :=
  { ty := .slice n u8, addr := a, bytes := b }

/-- Model of the test type `Au32Pad(u32, u8)`: a `#[repr(C)]` struct of a
4-byte member and a 1-byte member, padded by the compiler to size 8. -/
def au32pad : Ty := .agg 8 4 [.prim 4 4, .prim 1 1]

/-- `cast_mut` performs exactly the checks and view construction of
`cast`; the two differ only in the mutability of the returned borrow. -/
theorem cast_mut_eq_cast (s : Val) (t : Ty) : cast_mut s t = cast s t := rfl

/-- If every member validates, the member walk succeeds and returns the
sum of the member sizes. -/
theorem safecastMembers_ok (ms : List Ty)
    (h : ∀ m ∈ ms, safecast m = .ok ()) :
    safecastMembers ms = .ok (sumSizes ms) := by
  induction ms with
  | nil => rfl
  | cons m rest ih =>
    have hm : safecast m = .ok () := h m (List.mem_cons_self m rest)
    have hr := ih (fun x hx => h x (List.mem_cons_of_mem m hx))
    simp [safecastMembers, hm, hr, sumSizes]

/-- If the member walk succeeds, every member validated and the returned
accumulator is the sum of the member sizes. -/
theorem safecastMembers_ok_inv (ms : List Ty) (n : Nat)
    (h : safecastMembers ms = .ok n) :
    n = sumSizes ms ∧ ∀ m ∈ ms, safecast m = .ok () := by
  induction ms generalizing n with
  | nil =>
    simp only [safecastMembers] at h
    cases h
    exact ⟨rfl, by simp⟩
  | cons m rest ih =>
    simp only [safecastMembers] at h
    cases hm : safecast m with
    | fail e => rw [hm] at h; cases h
    | ok u =>
      rw [hm] at h
      cases hr : safecastMembers rest with
      | fail e => rw [hr] at h; cases h
      | ok s =>
        rw [hr] at h
        cases h
        obtain ⟨hs, hall⟩ := ih s hr
        refine ⟨by simp [sumSizes, hs], ?_⟩
        intro x hx
        rcases List.mem_cons.mp hx with hx | hx
        · cases u; exact hx ▸ hm
        · exact hall x hx

/-- Validation of an aggregate succeeds exactly when every member
validates and the member sizes sum to the aggregate's declared size. -/
theorem safecast_agg_ok_iff (sz al : Nat) (ms : List Ty) :
    safecast (.agg sz al ms) = .ok () ↔
      ((∀ m ∈ ms, safecast m = .ok ()) ∧ sumSizes ms = sz) := by
  constructor
  · intro h
    unfold safecast at h
    split at h
    · cases h
    · rename_i x n hw
      split at h
      · rename_i hsz
        obtain ⟨hn, hall⟩ := safecastMembers_ok_inv ms n hw
        exact ⟨hall, hn ▸ hsz⟩
      · cases h
  · rintro ⟨hall, hsum⟩
    simp [safecast, safecastMembers_ok ms hall, hsum]

/-- An aggregate whose members all validate but whose member sizes do not
sum to its declared size fails validation with the padding condition. -/
theorem safecast_agg_padding (sz al : Nat) (ms : List Ty)
    (hall : ∀ m ∈ ms, safecast m = .ok ()) (hsum : sumSizes ms ≠ sz) :
    safecast (.agg sz al ms) = .fail .paddingDetected := by
  simp [safecast, safecastMembers_ok ms hall, hsum]

/-- When all five checks of `cast_copy_into` pass, the call succeeds and
overwrites the start of the destination with the source's bytes. -/
theorem cast_copy_into_ok (s d : Val)
    (h1 : 0 < size_of s.ty) (h2 : 0 < size_of d.ty)
    (h3 : size_of s.ty = size_of d.ty)
    (h4 : safecast s.ty = .ok ()) (h5 : safecast d.ty = .ok ()) :
    cast_copy_into s d =
      .ok { d with bytes := copyBytes (size_of s.ty) s.bytes d.bytes } := by
  simp [cast_copy_into, h1, h2, h3, h4, h5]

/-- A successful `cast_copy_into` implies every one of its checks passed,
and determines the result completely. -/
theorem cast_copy_into_ok_inv (s d v : Val)
    (h : cast_copy_into s d = .ok v) :
    0 < size_of s.ty ∧ 0 < size_of d.ty ∧
    size_of s.ty = size_of d.ty ∧
    safecast s.ty = .ok () ∧ safecast d.ty = .ok () ∧
    v = { d with bytes := copyBytes (size_of s.ty) s.bytes d.bytes } := by
  unfold cast_copy_into at h
  split at h
  · split at h
    · split at h
      · split at h
        · cases h
        · split at h
          · cases h
          · cases h
            rename_i p1 p2 p3 x1 u1 hs x2 u2 hd
            cases u1; cases u2
            exact ⟨p1, p2, p3, hs, hd, rfl⟩
      · cases h
    · cases h
  · cases h

/-- If any check of `cast_copy_into` fails, the call fails (aborting
before the copy) with the corresponding condition. -/
theorem cast_copy_into_first_failure (s d : Val) :
    (¬ 0 < size_of s.ty → cast_copy_into s d = .fail .zeroSizedOperand) ∧
    (0 < size_of s.ty → ¬ 0 < size_of d.ty →
      cast_copy_into s d = .fail .zeroSizedOperand) ∧
    (0 < size_of s.ty → 0 < size_of d.ty →
      size_of s.ty ≠ size_of d.ty →
      cast_copy_into s d = .fail .sizeMismatch) ∧
    (∀ e, 0 < size_of s.ty → 0 < size_of d.ty →
      size_of s.ty = size_of d.ty → safecast s.ty = .fail e →
      cast_copy_into s d = .fail e) ∧
    (∀ e, 0 < size_of s.ty → 0 < size_of d.ty →
      size_of s.ty = size_of d.ty → safecast s.ty = .ok () →
      safecast d.ty = .fail e →
      cast_copy_into s d = .fail e) := by
  refine ⟨fun h => by simp [cast_copy_into, h],
    fun h1 h2 => by simp [cast_copy_into, h1, h2],
    fun h1 h2 h3 => by simp [cast_copy_into, h1, h2, h3],
    fun e h1 h2 h3 hs => by simp [cast_copy_into, h1, h2, h3, hs],
    fun e h1 h2 h3 hs hd => by simp [cast_copy_into, h1, h2, h3, hs, hd]⟩

/-- When all checks of `cast` pass (including validation of the element
type, which the view's re-validation requires), the call succeeds with
the slice view over the source's own storage. -/
theorem cast_ok (s : Val) (t : Ty)
    (h1 : 0 < size_of s.ty) (h2 : 0 < size_of t)
    (h3 : safecast s.ty = .ok ())
    (h4 : 0 < align_of t) (h5 : s.addr % align_of t = 0)
    (h6 : size_of s.ty % size_of t = 0)
    (h7 : safecast t = .ok ()) :
    cast s t = .ok { ty := .slice (size_of s.ty / size_of t) t,
                     addr := s.addr, bytes := s.bytes } := by
  have hcount : size_of s.ty / size_of t ≠ 0 := by
    have hle : size_of t ≤ size_of s.ty :=
      Nat.le_of_dvd h1 (Nat.dvd_of_mod_eq_zero h6)
    have := Nat.div_pos hle h2
    omega
  have hview : safecast (Ty.slice (size_of s.ty / size_of t) t) = .ok () := by
    simp [safecast, hcount, h7]
  simp [cast, h1, h2, h3, h4, h5, h6, hview]

/-- A successful `cast` implies every one of its checks passed (zero-size,
source validation, alignment, divisibility, and re-validation of the
constructed view), and determines the returned view completely. -/
theorem cast_ok_inv (s : Val) (t : Ty) (v : Val)
    (h : cast s t = .ok v) :
    0 < size_of s.ty ∧ 0 < size_of t ∧
    safecast s.ty = .ok () ∧
    (0 < align_of t ∧ s.addr % align_of t = 0) ∧
    size_of s.ty % size_of t = 0 ∧
    safecast (Ty.slice (size_of s.ty / size_of t) t) = .ok () ∧
    v = { ty := .slice (size_of s.ty / size_of t) t,
          addr := s.addr, bytes := s.bytes } := by
  unfold cast at h
  split at h
  · split at h
    · split at h
      · cases h
      · split at h
        · split at h
          · split at h
            · cases h
            · cases h
              rename_i p1 p2 x1 u1 hs p4 p6 x2 u2 hv
              cases u1; cases u2
              exact ⟨p1, p2, hs, p4, p6, hv, rfl⟩
          · cases h
        · cases h
    · cases h
  · cases h

/-- If the alignment check of `cast` is reached and fails, the call fails
with the alignment condition. -/
theorem cast_alignment_failure (s : Val) (t : Ty)
    (h1 : 0 < size_of s.ty) (h2 : 0 < size_of t)
    (h3 : safecast s.ty = .ok ())
    (h4 : ¬ (0 < align_of t ∧ s.addr % align_of t = 0)) :
    cast s t = .fail .alignmentMismatch := by
  simp [cast, h1, h2, h3, h4]

/-- If source validation fails inside `cast`, the failure propagates
(before the alignment and divisibility checks and before any view is
constructed). -/
theorem cast_validation_failure (s : Val) (t : Ty) (e : Err)
    (h1 : 0 < size_of s.ty) (h2 : 0 < size_of t)
    (h3 : safecast s.ty = .fail e) :
    cast s t = .fail e := by
  simp [cast, h1, h2, h3]

/-- A slice of `n` bytes has size `n`. -/
theorem slice_u8_size (n : Nat) : size_of (Ty.slice n u8) = n := by
  simp [size_of, u8]

/-- A byte buffer of length `n` has size `n`. -/
theorem byteBuf_size (n a : Nat) (b : List Nat) :
    size_of (byteBuf n a b).ty = n := by
  simp [byteBuf, size_of, u8]

/-- Validating a non-empty slice validates its representative element. -/
theorem safecast_slice_pos (n : Nat) (t : Ty) (h : 0 < n) :
    safecast (.slice n t) = safecast t := by
  have hn : n ≠ 0 := by omega
  simp [safecast, hn]

/-- A non-empty byte buffer passes validation. -/
theorem byteBuf_safecast (n a : Nat) (b : List Nat) (h : 0 < n) :
    safecast (byteBuf n a b).ty = .ok () := by
  rw [byteBuf, safecast_slice_pos n u8 h]; rfl

/-- Copying `n` bytes over a destination of at most `n` bytes from a
source holding exactly `n` bytes reproduces the source bytes exactly. -/
theorem copyBytes_full (n : Nat) (b g : List Nat)
    (hb : b.length = n) (hg : g.length ≤ n) : copyBytes n b g = b := by
  simp [copyBytes, List.take_of_length_le (le_of_eq hb),
    List.drop_eq_nil_of_le hg]

/-- No check of `cast_copy_into` reads the destination's bytes, so two
destinations differing only in bytes beyond the copied region produce the
same outcome. -/
theorem cast_copy_into_dest_bytes_congr (s : Val) (t : Ty) (a : Nat)
    (g1 g2 : List Nat)
    (h : List.drop (size_of s.ty) g1 = List.drop (size_of s.ty) g2) :
    cast_copy_into s { ty := t, addr := a, bytes := g1 }
      = cast_copy_into s { ty := t, addr := a, bytes := g2 } := by
  unfold cast_copy_into copyBytes
  dsimp only
  rw [h]

/-- Claim C1, counterexample to the statement as given: the claim asserts
that every cast/copy operation on a value of a padding-forcing aggregate
fails with the PaddingDetected condition, but `cast_copy_into` from a
padded 8-byte aggregate into a 4-byte destination fails with the size
mismatch condition instead (the size check precedes validation), so not
every such failure carries PaddingDetected. -/
theorem claim_C1_counterexample :
    cast_copy_into
        { ty := Ty.agg 8 4 [Ty.prim 4 4, Ty.prim 1 1], addr := 0,
          bytes := List.replicate 8 144 }
        { ty := Ty.prim 4 4, addr := 0, bytes := List.replicate 4 0 }
      = .fail .sizeMismatch ∧
    Err.sizeMismatch ≠ Err.paddingDetected :=
  ⟨rfl, by decide⟩

/-- Claim C1 (amended): for an aggregate whose member sizes do not sum to
its declared size (members themselves valid), no cast/copy operation on a
value of that type ever succeeds; and each operation fails with exactly
the PaddingDetected condition whenever its earlier checks (zero-size and,
for the copies, size match) pass. -/
theorem claim_C1 (sz al : Nat) (ms : List Ty)
    (hall : ∀ m ∈ ms, safecast m = .ok ()) (hsum : sumSizes ms ≠ sz) :
    (∀ s d : Val, s.ty = .agg sz al ms →
      ∀ v, cast_copy_into s d ≠ .ok v) ∧
    (∀ (s : Val) (t : Ty) (ra : Nat) (g : List Nat), s.ty = .agg sz al ms →
      ∀ v, cast_copy s t ra g ≠ .ok v) ∧
    (∀ (s : Val) (t : Ty), s.ty = .agg sz al ms →
      ∀ v, cast s t ≠ .ok v) ∧
    (∀ (s : Val) (t : Ty), s.ty = .agg sz al ms →
      ∀ v, cast_mut s t ≠ .ok v) ∧
    (∀ s d : Val, s.ty = .agg sz al ms → 0 < size_of d.ty →
      size_of s.ty = size_of d.ty →
      cast_copy_into s d = .fail .paddingDetected) ∧
    (∀ (s : Val) (t : Ty) (ra : Nat) (g : List Nat), s.ty = .agg sz al ms →
      0 < size_of t → size_of s.ty = size_of t →
      cast_copy s t ra g = .fail .paddingDetected) ∧
    (∀ (s : Val) (t : Ty), s.ty = .agg sz al ms → 0 < size_of s.ty →
      0 < size_of t → cast s t = .fail .paddingDetected) ∧
    (∀ (s : Val) (t : Ty), s.ty = .agg sz al ms → 0 < size_of s.ty →
      0 < size_of t → cast_mut s t = .fail .paddingDetected) := by
  have hA : safecast (Ty.agg sz al ms) = .fail .paddingDetected :=
    safecast_agg_padding sz al ms hall hsum
  refine ⟨?_, ?_, ?_, ?_, ?_, ?_, ?_, ?_⟩
  · intro s d hs v hok
    obtain ⟨_, _, _, h4, _, _⟩ := cast_copy_into_ok_inv s d v hok
    rw [hs, hA] at h4
    cases h4
  · intro s t ra g hs v hok
    obtain ⟨_, _, _, h4, _, _⟩ :=
      cast_copy_into_ok_inv s { ty := t, addr := ra, bytes := g } v hok
    rw [hs, hA] at h4
    cases h4
  · intro s t hs v hok
    obtain ⟨_, _, h3, _⟩ := cast_ok_inv s t v hok
    rw [hs, hA] at h3
    cases h3
  · intro s t hs v hok
    rw [cast_mut_eq_cast] at hok
    obtain ⟨_, _, h3, _⟩ := cast_ok_inv s t v hok
    rw [hs, hA] at h3
    cases h3
  · intro s d hs hd hsz
    have h1 : 0 < size_of s.ty := by rw [hsz]; exact hd
    exact (cast_copy_into_first_failure s d).2.2.2.1 _ h1 hd hsz
      (by rw [hs]; exact hA)
  · intro s t ra g hs ht hsz
    have h1 : 0 < size_of s.ty := by rw [hsz]; exact ht
    exact (cast_copy_into_first_failure s
        { ty := t, addr := ra, bytes := g }).2.2.2.1 _ h1 ht hsz
      (by rw [hs]; exact hA)
  · intro s t hs h1 h2
    exact cast_validation_failure s t _ h1 h2 (by rw [hs]; exact hA)
  · intro s t hs h1 h2
    rw [cast_mut_eq_cast]
    exact cast_validation_failure s t _ h1 h2 (by rw [hs]; exact hA)

/-- Claim C1 witness: the padded aggregate `Au32Pad` (declared size 8,
member sizes summing to 5) fails `cast_copy_into` to a matching 8-byte
byte buffer with the PaddingDetected condition. -/
theorem claim_C1_witness :
    cast_copy_into
        { ty := Ty.agg 8 4 [Ty.prim 4 4, Ty.prim 1 1], addr := 0,
          bytes := List.replicate 8 144 }
        (byteBuf 8 0 (List.replicate 8 0))
      = .fail .paddingDetected := by
  have hall : ∀ m ∈ [Ty.prim 4 4, Ty.prim 1 1], safecast m = .ok () := by
    intro m hm
    cases hm with
    | head => rfl
    | tail _ h =>
      cases h with
      | head => rfl
      | tail _ h => cases h
  exact (claim_C1 8 4 [Ty.prim 4 4, Ty.prim 1 1] hall (by decide)).2.2.2.2.1
    _ _ rfl (by decide) (by decide)

/-- Claim C2: the generated validation routine for an aggregate succeeds
exactly when every member validates and the member sizes sum to the
aggregate's own size; when every member validates, it fails with the
PaddingDetected condition exactly when the sum differs from the
aggregate's size. -/
theorem claim_C2 (sz al : Nat) (ms : List Ty) :
    (safecast (.agg sz al ms) = .ok () ↔
      ((∀ m ∈ ms, safecast m = .ok ()) ∧ sumSizes ms = sz)) ∧
    ((∀ m ∈ ms, safecast m = .ok ()) →
      (safecast (.agg sz al ms) = .fail .paddingDetected ↔
        sumSizes ms ≠ sz)) := by
  refine ⟨safecast_agg_ok_iff sz al ms, fun hall => ⟨?_, ?_⟩⟩
  · intro hfail hsum
    have hok := (safecast_agg_ok_iff sz al ms).mpr ⟨hall, hsum⟩
    rw [hok] at hfail
    cases hfail
  · exact safecast_agg_padding sz al ms hall

/-- Claim C2 witness: for the padded aggregate `Au32Pad` (members of
sizes 4 and 1, declared size 8), validation fails with the
PaddingDetected condition. -/
theorem claim_C2_witness :
    safecast (Ty.agg 8 4 [Ty.prim 4 4, Ty.prim 1 1])
      = .fail .paddingDetected := by
  have hall : ∀ m ∈ [Ty.prim 4 4, Ty.prim 1 1], safecast m = .ok () := by
    intro m hm
    cases hm with
    | head => rfl
    | tail _ h =>
      cases h with
      | head => rfl
      | tail _ h => cases h
  exact ((claim_C2 8 4 [Ty.prim 4 4, Ty.prim 1 1]).2 hall).mpr (by decide)

/-- Claim C3: round-trip — for every Capable Type `T` (validation passes,
nonzero size, as required of a valid Capable Type) and every byte buffer
`b` of length `size_of T`, `cast_copy` into `T` produces a value whose
bytes, copied back via `cast_copy_into` into an equal-length byte buffer,
are exactly `b`. -/
theorem claim_C3 (t : Ty) (a ra a2 : Nat) (b g d : List Nat)
    (hT : safecast t = .ok ()) (hpos : 0 < size_of t)
    (hb : b.length = size_of t) (hg : g.length = size_of t)
    (hd : d.length = size_of t) :
    cast_copy (byteBuf (size_of t) a b) t ra g
      = .ok { ty := t, addr := ra, bytes := b } ∧
    cast_copy_into { ty := t, addr := ra, bytes := b }
        (byteBuf (size_of t) a2 d)
      = .ok (byteBuf (size_of t) a2 b) := by
  have hbufsz : size_of (byteBuf (size_of t) a b).ty = size_of t :=
    byteBuf_size _ _ _
  have hbufok := byteBuf_safecast (size_of t) a b hpos
  constructor
  · rw [cast_copy]
    rw [cast_copy_into_ok _ _ (by rw [hbufsz]; exact hpos) hpos
      (by rw [hbufsz]) hbufok hT]
    dsimp only [byteBuf]
    rw [slice_u8_size, copyBytes_full (size_of t) b g hb (le_of_eq hg)]
  · have hdsz : size_of (byteBuf (size_of t) a2 d).ty = size_of t :=
      byteBuf_size _ _ _
    rw [cast_copy_into_ok _ _ hpos (by rw [hdsz]; exact hpos)
      (by rw [hdsz]) hT (byteBuf_safecast (size_of t) a2 d hpos)]
    dsimp only [byteBuf]
    rw [copyBytes_full (size_of t) b d hb (le_of_eq hd)]

/-- Claim C3 witness: a 4-byte buffer of `0x41` bytes survives the round
trip through a 4-byte primitive unchanged. -/
theorem claim_C3_witness :
    cast_copy (byteBuf 4 0 [65, 65, 65, 65]) (Ty.prim 4 4) 100 [9, 9, 9, 9]
      = .ok { ty := Ty.prim 4 4, addr := 100, bytes := [65, 65, 65, 65] } ∧
    cast_copy_into { ty := Ty.prim 4 4, addr := 100, bytes := [65, 65, 65, 65] }
        (byteBuf 4 0 [0, 0, 0, 0])
      = .ok (byteBuf 4 0 [65, 65, 65, 65]) :=
  claim_C3 (Ty.prim 4 4) 0 100 0 [65, 65, 65, 65] [9, 9, 9, 9] [0, 0, 0, 0]
    rfl (by decide) (by decide) (by decide) (by decide)

/-- Claim C4: under its preconditions (nonzero equal sizes, both
validations passing) `cast_copy_into` succeeds and leaves the destination
holding exactly the source's bytes, the destination overwritten
entirely. -/
theorem claim_C4 (s d : Val)
    (h1 : 0 < size_of s.ty) (h2 : 0 < size_of d.ty)
    (h3 : size_of s.ty = size_of d.ty)
    (h4 : safecast s.ty = .ok ()) (h5 : safecast d.ty = .ok ())
    (hb : s.bytes.length = size_of s.ty)
    (hd : d.bytes.length = size_of d.ty) :
    cast_copy_into s d
      = .ok { ty := d.ty, addr := d.addr, bytes := s.bytes } := by
  rw [cast_copy_into_ok s d h1 h2 h3 h4 h5]
  have : copyBytes (size_of s.ty) s.bytes d.bytes = s.bytes :=
    copyBytes_full _ _ _ hb (by rw [hd, ← h3])
  rw [this]

/-- Claim C4 witness: copying a 4-byte primitive value into a 4-byte byte
buffer leaves the buffer bit-identical to the source. -/
theorem claim_C4_witness :
    cast_copy_into { ty := Ty.prim 4 4, addr := 0, bytes := [1, 2, 3, 4] }
        (byteBuf 4 8 [0, 0, 0, 0])
      = .ok { ty := (byteBuf 4 8 [0, 0, 0, 0]).ty, addr := 8,
              bytes := [1, 2, 3, 4] } :=
  claim_C4 { ty := Ty.prim 4 4, addr := 0, bytes := [1, 2, 3, 4] }
    (byteBuf 4 8 [0, 0, 0, 0]) (by decide) (by decide) (by decide)
    rfl rfl (by decide) (by decide)

/-- Claim C5, counterexample to the statement as given: with an 8-byte
byte buffer as source and the padded aggregate `Au32Pad` as element type,
every stated precondition of the claim holds (source validates, source
size and element size are nonzero, address 0 satisfies the alignment,
sizes divide evenly), yet `cast` does not return a view — it fails with
the PaddingDetected condition raised by the re-validation of the view's
element type. -/
theorem claim_C5_counterexample :
    (safecast (byteBuf 8 0 (List.replicate 8 65)).ty = .ok () ∧
     0 < size_of (byteBuf 8 0 (List.replicate 8 65)).ty ∧
     0 < size_of au32pad ∧
     (byteBuf 8 0 (List.replicate 8 65)).addr % align_of au32pad = 0 ∧
     size_of (byteBuf 8 0 (List.replicate 8 65)).ty % size_of au32pad = 0) ∧
    cast (byteBuf 8 0 (List.replicate 8 65)) au32pad
      = .fail .paddingDetected :=
  ⟨⟨rfl, by decide, by decide, by decide, by decide⟩, rfl⟩

/-- Claim C5 (amended): when additionally the element type `T` itself
validates, `cast` under the claim's preconditions returns the immutable
view of `size_of(source) / size_of(T)` elements backed by the source's
own storage (same address, same bytes — nothing copied), and the
re-validation of the constructed view passes. -/
theorem claim_C5 (s : Val) (t : Ty)
    (h1 : 0 < size_of s.ty) (h2 : 0 < size_of t)
    (h3 : safecast s.ty = .ok ())
    (h4 : 0 < align_of t) (h5 : s.addr % align_of t = 0)
    (h6 : size_of s.ty % size_of t = 0)
    (h7 : safecast t = .ok ()) :
    cast s t = .ok { ty := .slice (size_of s.ty / size_of t) t,
                     addr := s.addr, bytes := s.bytes } ∧
    safecast (Ty.slice (size_of s.ty / size_of t) t) = .ok () := by
  have hcount : 0 < size_of s.ty / size_of t :=
    Nat.div_pos (Nat.le_of_dvd h1 (Nat.dvd_of_mod_eq_zero h6)) h2
  exact ⟨cast_ok s t h1 h2 h3 h4 h5 h6 h7,
    by rw [safecast_slice_pos _ t hcount]; exact h7⟩

/-- Claim C5 witness: an 8-byte buffer of `0x41` bytes cast to a 4-byte
primitive yields the view of exactly 2 elements over the same storage. -/
theorem claim_C5_witness :
    cast (byteBuf 8 0 (List.replicate 8 65)) (Ty.prim 4 4)
      = .ok { ty := Ty.slice 2 (Ty.prim 4 4), addr := 0,
              bytes := List.replicate 8 65 } ∧
    safecast (Ty.slice 2 (Ty.prim 4 4)) = .ok () :=
  claim_C5 (byteBuf 8 0 (List.replicate 8 65)) (Ty.prim 4 4)
    (by decide) (by decide) rfl (by decide) (by decide) (by decide) rfl

/-- Claim C6: a successful operation implies every one of its failure
conditions was absent — each check runs before the byte transfer or view
construction, so a failing check yields a `fail` outcome carrying no
value: no partial copy and no half-constructed view can be observed. -/
theorem claim_C6 :
    (∀ s d v, cast_copy_into s d = .ok v →
      0 < size_of s.ty ∧ 0 < size_of d.ty ∧
      size_of s.ty = size_of d.ty ∧
      safecast s.ty = .ok () ∧ safecast d.ty = .ok ()) ∧
    (∀ (s : Val) (t : Ty) (ra : Nat) (g : List Nat) (v : Val),
      cast_copy s t ra g = .ok v →
      0 < size_of s.ty ∧ 0 < size_of t ∧ size_of s.ty = size_of t ∧
      safecast s.ty = .ok () ∧ safecast t = .ok ()) ∧
    (∀ (s : Val) (t : Ty) (v : Val), cast s t = .ok v →
      0 < size_of s.ty ∧ 0 < size_of t ∧ safecast s.ty = .ok () ∧
      (0 < align_of t ∧ s.addr % align_of t = 0) ∧
      size_of s.ty % size_of t = 0 ∧ safecast v.ty = .ok ()) ∧
    (∀ (s : Val) (t : Ty) (v : Val), cast_mut s t = .ok v →
      0 < size_of s.ty ∧ 0 < size_of t ∧ safecast s.ty = .ok () ∧
      (0 < align_of t ∧ s.addr % align_of t = 0) ∧
      size_of s.ty % size_of t = 0 ∧ safecast v.ty = .ok ()) := by
  refine ⟨?_, ?_, ?_, ?_⟩
  · intro s d v h
    obtain ⟨h1, h2, h3, h4, h5, _⟩ := cast_copy_into_ok_inv s d v h
    exact ⟨h1, h2, h3, h4, h5⟩
  · intro s t ra g v h
    obtain ⟨h1, h2, h3, h4, h5, _⟩ :=
      cast_copy_into_ok_inv s { ty := t, addr := ra, bytes := g } v h
    exact ⟨h1, h2, h3, h4, h5⟩
  · intro s t v h
    obtain ⟨h1, h2, h3, h4, h5, h6, veq⟩ := cast_ok_inv s t v h
    rw [veq]
    exact ⟨h1, h2, h3, h4, h5, h6⟩
  · intro s t v h
    rw [cast_mut_eq_cast] at h
    obtain ⟨h1, h2, h3, h4, h5, h6, veq⟩ := cast_ok_inv s t v h
    rw [veq]
    exact ⟨h1, h2, h3, h4, h5, h6⟩

/-- Claim C6 witness: a successful concrete `cast_copy_into` exhibits all
its checks having passed. -/
theorem claim_C6_witness :
    0 < size_of (byteBuf 4 0 [65, 65, 65, 65]).ty ∧
    0 < size_of (Ty.prim 4 4) ∧
    size_of (byteBuf 4 0 [65, 65, 65, 65]).ty = size_of (Ty.prim 4 4) ∧
    safecast (byteBuf 4 0 [65, 65, 65, 65]).ty = .ok () ∧
    safecast (Ty.prim 4 4) = .ok () :=
  claim_C6.1 (byteBuf 4 0 [65, 65, 65, 65])
    { ty := Ty.prim 4 4, addr := 8, bytes := [0, 0, 0, 0] }
    { ty := Ty.prim 4 4, addr := 8, bytes := [65, 65, 65, 65] } rfl

/-- Claim C7: the value built by `cast_copy` does not depend on the
arbitrary initial contents of its uninitialized storage — on every path,
success or failure, the outcome is the same for any two initial
contents, and a returned value's bytes are exactly the copied source
bytes, so no partially-initialized value can escape. -/
theorem claim_C7 (s : Val) (t : Ty) (ra : Nat) (g1 g2 : List Nat)
    (hg1 : g1.length = size_of t) (hg2 : g2.length = size_of t) :
    cast_copy s t ra g1 = cast_copy s t ra g2 ∧
    (∀ v, cast_copy s t ra g1 = .ok v →
      v = { ty := t, addr := ra,
            bytes := List.take (size_of s.ty) s.bytes }) := by
  constructor
  · by_cases hsz : size_of s.ty = size_of t
    · rw [cast_copy, cast_copy]
      apply cast_copy_into_dest_bytes_congr
      rw [List.drop_eq_nil_of_le (le_of_eq (hg1.trans hsz.symm)),
        List.drop_eq_nil_of_le (le_of_eq (hg2.trans hsz.symm))]
    · by_cases h1 : 0 < size_of s.ty
      · by_cases h2 : 0 < size_of t
        · rw [cast_copy, cast_copy,
            (cast_copy_into_first_failure s
              { ty := t, addr := ra, bytes := g1 }).2.2.1 h1 h2 hsz,
            (cast_copy_into_first_failure s
              { ty := t, addr := ra, bytes := g2 }).2.2.1 h1 h2 hsz]
        · rw [cast_copy, cast_copy,
            (cast_copy_into_first_failure s
              { ty := t, addr := ra, bytes := g1 }).2.1 h1 h2,
            (cast_copy_into_first_failure s
              { ty := t, addr := ra, bytes := g2 }).2.1 h1 h2]
      · rw [cast_copy, cast_copy,
          (cast_copy_into_first_failure s
            { ty := t, addr := ra, bytes := g1 }).1 h1,
          (cast_copy_into_first_failure s
            { ty := t, addr := ra, bytes := g2 }).1 h1]
  · intro v hok
    obtain ⟨_, _, h3, _, _, veq⟩ :=
      cast_copy_into_ok_inv s { ty := t, addr := ra, bytes := g1 } v hok
    rw [veq]
    dsimp only
    simp only [copyBytes]
    rw [List.drop_eq_nil_of_le (le_of_eq (hg1.trans h3.symm)),
      List.append_nil]

/-- Claim C7 witness: two different initial garbage contents yield the
same `cast_copy` result on a concrete input. -/
theorem claim_C7_witness :
    cast_copy (byteBuf 4 0 [65, 65, 65, 65]) (Ty.prim 4 4) 8 [9, 9, 9, 9]
      = cast_copy (byteBuf 4 0 [65, 65, 65, 65]) (Ty.prim 4 4) 8
          [7, 7, 7, 7] :=
  (claim_C7 (byteBuf 4 0 [65, 65, 65, 65]) (Ty.prim 4 4) 8 [9, 9, 9, 9]
    [7, 7, 7, 7] (by decide) (by decide)).1

/-- Claim C8: casting a non-empty byte buffer whose start address is not
a multiple of the target element type's alignment fails, in both `cast`
and `cast_mut`, with the AlignmentMismatch condition — with no
divisibility requirement on the buffer's size, so in particular even when
the size is evenly divisible by the element size. -/
theorem claim_C8 (n a : Nat) (b : List Nat) (t : Ty)
    (hn : 0 < n) (ht : 0 < size_of t) (hal : ¬ align_of t ∣ a) :
    cast (byteBuf n a b) t = .fail .alignmentMismatch ∧
    cast_mut (byteBuf n a b) t = .fail .alignmentMismatch := by
  have h1 : 0 < size_of (byteBuf n a b).ty := by
    rw [byteBuf_size]; exact hn
  have h3 := byteBuf_safecast n a b hn
  have h4 : ¬ (0 < align_of t ∧ (byteBuf n a b).addr % align_of t = 0) := by
    rintro ⟨hpos, hmod⟩
    exact hal (Nat.dvd_of_mod_eq_zero hmod)
  exact ⟨cast_alignment_failure _ t h1 ht h3 h4,
    by rw [cast_mut_eq_cast]; exact cast_alignment_failure _ t h1 ht h3 h4⟩

/-- Claim C8 witness: a 4-byte buffer at address 2 cast to a 4-aligned
4-byte element fails with the alignment condition even though 4 divides
4. -/
theorem claim_C8_witness :
    cast (byteBuf 4 2 (List.replicate 4 65)) (Ty.prim 4 4)
      = .fail .alignmentMismatch ∧
    cast_mut (byteBuf 4 2 (List.replicate 4 65)) (Ty.prim 4 4)
      = .fail .alignmentMismatch :=
  claim_C8 4 2 (List.replicate 4 65) (Ty.prim 4 4)
    (by decide) (by decide) (by decide)

/-- Claim C9: the five failure conditions — zero-sized operand, size
mismatch, alignment mismatch, indivisible size, padding detected — are
pairwise distinguishable, both as failure values and through the panic
messages the caller observes. -/
theorem claim_C9 :
    ([Err.zeroSizedOperand, Err.sizeMismatch, Err.alignmentMismatch,
      Err.indivisibleSize, Err.paddingDetected].Pairwise (· ≠ ·)) ∧
    ([message .zeroSizedOperand, message .sizeMismatch,
      message .alignmentMismatch, message .indivisibleSize,
      message .paddingDetected].Pairwise (· ≠ ·)) :=
  ⟨by decide, by decide⟩

/-- Claim C10: validating an empty slice fails with the index
out-of-bounds panic from accessing element 0 — it neither succeeds nor
reports PaddingDetected — while on any non-empty slice validation
delegates totally to the element type. -/
theorem claim_C10 (t : Ty) :
    safecast (Ty.slice 0 t) = .fail .indexOutOfBounds ∧
    Err.indexOutOfBounds ≠ Err.paddingDetected ∧
    (∀ u : Unit, safecast (Ty.slice 0 t) ≠ .ok u) ∧
    (∀ n, 0 < n → safecast (Ty.slice n t) = safecast t) := by
  have hz : safecast (Ty.slice 0 t) = .fail .indexOutOfBounds := by
    simp [safecast]
  refine ⟨hz, by decide, ?_, fun n hn => safecast_slice_pos n t hn⟩
  intro u h
  rw [hz] at h
  cases h

/-- Claim C10 witness: the empty byte slice fails validation with the
out-of-bounds condition; a one-element byte slice validates like its
element. -/
theorem claim_C10_witness :
    safecast (Ty.slice 0 u8) = .fail .indexOutOfBounds ∧
    safecast (Ty.slice 1 u8) = safecast u8 :=
  ⟨(claim_C10 u8).1, (claim_C10 u8).2.2.2 1 (by decide)⟩

end SafecastModel
